/-
Verification of the GeomLibC curve library (NURBS evaluation, spline knot
management, adaptive Simpson integration).

Shallow embedding conventions:
* `Real` (the C++ template parameter, instantiated with `float`/`double`) is
  modelled by `ℚ`; the claims under consideration are about exact algebraic
  structure, loop control, and indexing, not floating-point rounding.
* `geom::Vector<N, Real>` (src/Vector.hpp) is a structure holding the
  coordinate array `_v` (as `Fin N → ℚ`) and the weight `_w`.
* `std::vector` contents are Lean `List`s.  Accesses through `.at(i)` or
  `operator[]` that are in range for every execution covered by a theorem's
  hypotheses are modelled with `List.getD`; a separate bounds-checked model
  (`Option`-valued, suffix `C`) is used for the error-handling claim, where
  `none` records that the C++ would throw `std::out_of_range` (from `.at`)
  or perform an undefined out-of-bounds access (from `operator[]`/`front`).
-/
import Mathlib

namespace geom

/-- `geom::Vector<N, Real>` from src/Vector.hpp: `N` coordinates `_v` plus a
scalar weight `_w`. -/
structure Vector (N : ℕ) where
  v : Fin N → ℚ
  w : ℚ
  deriving DecidableEq

namespace Vector

/-- The default ("origin") constructor: all coordinates 0, weight 1
(src/Vector.hpp, `Vector()`). -/
def origin (N : ℕ) : Vector N := ⟨fun _ => 0, 1⟩

/-- `operator+`: adds coordinates, result built by the default constructor,
so its weight is 1 regardless of the operands (src/Vector.hpp lines 123-130). -/
def add {N : ℕ} (a b : Vector N) : Vector N := ⟨fun i => a.v i + b.v i, 1⟩

/-- `operator+=`: adds coordinates in place; the weight of the target is left
unchanged (src/Vector.hpp lines 135-140). -/
def addAssign {N : ℕ} (a b : Vector N) : Vector N := ⟨fun i => a.v i + b.v i, a.w⟩

/-- `operator*` with a scalar: multiplies coordinates, result built by the
default constructor, so its weight is 1 (src/Vector.hpp lines 193-200). -/
def smul {N : ℕ} (a : Vector N) (r : ℚ) : Vector N := ⟨fun i => a.v i * r, 1⟩

/-- `operator/` with a scalar: divides coordinates, result built by the
default constructor, so its weight is 1 (src/Vector.hpp lines 215-222). -/
def divScalar {N : ℕ} (a : Vector N) (r : ℚ) : Vector N := ⟨fun i => a.v i / r, 1⟩

end Vector

end geom

namespace integral

/-- One recursion step of `integral::Simpson::aux` (src/Simpson.hpp lines
79-100), instrumented: the first component is the returned estimate exactly as
the C++ computes it, the second counts the leaf intervals (calls that return
without further recursion).  `bottom` is the C++ `int` recursion budget. -/
def simpsonAux (f : ℚ → ℚ) (a b eps S fa fb fc : ℚ) (bottom : ℤ) : ℚ × ℕ :=
  let c := (a + b) / 2
  let h := b - a
  let d := (a + c) / 2
  let e := (c + b) / 2
  let fd := f d
  let fe := f e
  let Sleft := (h / 12) * (fa + 4 * fd + fc)
  let Sright := (h / 12) * (fc + 4 * fe + fb)
  let S2 := Sleft + Sright
  if hb : bottom ≤ 0 ∨ |S2 - S| ≤ 15 * eps then
    (S2 + (S2 - S) / 15, 1)
  else
    let L := simpsonAux f a c (eps / 2) Sleft fa fc fd (bottom - 1)
    let R := simpsonAux f c b (eps / 2) Sright fc fb fe (bottom - 1)
    (L.1 + R.1, L.2 + R.2)
termination_by bottom.toNat
decreasing_by
  all_goals
    rw [not_or] at hb
    omega

/-- `integral::Simpson::operator()` (src/Simpson.hpp lines 64-77): coarse
Simpson estimate over `[a,b]`, then the adaptive refinement `aux`.
First component: the returned value; second: leaf-interval count. -/
def simpson (f : ℚ → ℚ) (a b accuracy : ℚ) (maxRecursionDepth : ℤ) : ℚ × ℕ :=
  let c := (a + b) / 2
  let h := b - a
  let fa := f a
  let fb := f b
  let fc := f c
  let S := (h / 6) * (fa + 4 * fc + fb)
  simpsonAux f a b accuracy S fa fb fc maxRecursionDepth

end integral

namespace curve

/-- Point update of a `ℕ → ℚ` store; used to model in-place writes to the
C-arrays and to the `NURBS::Matrix` flat buffer. -/
def updFn (f : ℕ → ℚ) (i : ℕ) (x : ℚ) : ℕ → ℚ := fun j => if j = i then x else f j

/-- The binary-search loop of `NURBS::findSpan` (src/NURBS.hpp lines 164-175).
The C++ `while` loop carries `low`/`high` and recomputes `mid` each round; the
`fuel` argument bounds the number of iterations (the loop terminates within
`high - low` iterations for every non-decreasing knot vector with
`U[low] ≤ u < U[high]`, proved below, and `findSpan` supplies that much fuel,
so the model agrees with the C++ on all such inputs). -/
def findSpanLoop (U : List ℚ) (u : ℚ) : ℕ → ℕ → ℕ → ℕ
  | 0, low, high => (low + high) / 2
  | fuel + 1, low, high =>
    let mid := (low + high) / 2
    if u < U.getD mid 0 ∨ U.getD (mid + 1) 0 ≤ u then
      if u < U.getD mid 0 then findSpanLoop U u fuel low mid
      else findSpanLoop U u fuel mid high
    else mid

/-- `NURBS::findSpan` (src/NURBS.hpp lines 155-177): special boundary cases,
then binary search with `low = p`, `high = n + 1`. -/
def findSpan (n p : ℕ) (u : ℚ) (U : List ℚ) : ℕ :=
  if u ≤ U.getD p 0 then p
  else if U.getD (n + 1) 0 ≤ u then n
  else findSpanLoop U u (n + 1 - p) p (n + 1)

/-- Row `j` of the triangular Cox-de Boor table built by the inner `r`-loop of
`NURBS::basisFuns` (src/NURBS.hpp lines 187-199) from row `j - 1` (`prev`).
In the C++, iteration `r` computes `temp = N[r] / (right[r+1] + left[j-r])`,
writes `N[r] = saved + right[r+1] * temp` (with `saved = 0` for `r = 0` and
`saved = left[j-r+1] * temp_(r-1)` afterwards) and finally `N[j] = saved`;
since `temp` at index `r` only reads the previous-row value `prev r`, each new
entry has the closed form below.  Entries beyond index `j` are not written. -/
def basisRow (left right : ℕ → ℚ) (j : ℕ) (prev : ℕ → ℚ) : ℕ → ℚ := fun r =>
  if r < j then
    (if r = 0 then 0
     else left (j - r + 1) * (prev (r - 1) / (right r + left (j - r + 1))))
      + right (r + 1) * (prev r / (right (r + 1) + left (j - r)))
  else if r = j then left 1 * (prev (j - 1) / (right j + left 1))
  else prev r

/-- The outer `j`-loop of `NURBS::basisFuns`: row 0 is `N[0] = 1`, then `p`
applications of `basisRow`. -/
def basisAux (left right : ℕ → ℚ) : ℕ → ℕ → ℚ
  | 0 => fun r => if r = 0 then 1 else 0
  | j + 1 => basisRow left right (j + 1) (basisAux left right j)

/-- `NURBS::basisFuns` (src/NURBS.hpp lines 179-200) with
`left[j] = u - U[i+1-j]` and `right[j] = U[i+j] - u`; returns the array
`N[0..p]` of nonvanishing basis functions at `u` for span `i`.
(`i + 1 - j` is ℕ subtraction; every use has `j ≤ p ≤ i`.) -/
def basisFuns (i : ℕ) (u : ℚ) (p : ℕ) (U : ℕ → ℚ) : ℕ → ℚ :=
  basisAux (fun k => u - U (i + 1 - k)) (fun k => U (i + k) - u) p

/-- `NURBS::curvePoint` (src/NURBS.hpp lines 202-218): find the span, evaluate
the `p+1` basis functions, accumulate `Cw += Pi * Pi.weight() * N[j]` over the
influencing control points (starting from the default-constructed point) and
finally return `Cw / Cw.weight()`. -/
def curvePoint (N n p : ℕ) (U : List ℚ) (Pw : List (geom.Vector N)) (u : ℚ) :
    geom.Vector N :=
  let span := findSpan n p u U
  let Nb := basisFuns span u p (fun k => U.getD k 0)
  let Cw := (List.range (p + 1)).foldl
    (fun acc j =>
      let Pi := Pw.getD (span - p + j) (geom.Vector.origin N)
      acc.addAssign ((Pi.smul Pi.w).smul (Nb j)))
    (geom.Vector.origin N)
  Cw.divScalar Cw.w

/-- The first `while` loop of the non-clamped branch of
`NURBS::adjustParameter` (src/NURBS.hpp line 338): `while (u < minKnot)
u += total`.  For `total ≤ 0` the C++ loop never terminates; the guard makes
that region explicit (the function then returns `u` unchanged, and no theorem
below relies on that case). -/
def adjustUp (minKnot total u : ℚ) : ℚ :=
  if h : 0 < total ∧ u < minKnot then adjustUp minKnot total (u + total) else u
termination_by (⌈(minKnot - u) / total⌉).toNat
decreasing_by
  have ht : total ≠ 0 := ne_of_gt h.1
  have h1 : (minKnot - (u + total)) / total = (minKnot - u) / total - 1 := by
    field_simp
    ring
  rw [h1]
  have h2 : (0 : ℚ) < (minKnot - u) / total := div_pos (by linarith [h.2]) h.1
  have h3 : (1 : ℤ) ≤ ⌈(minKnot - u) / total⌉ := Int.ceil_pos.mpr h2
  rw [Int.ceil_sub_one]
  omega

/-- The second `while` loop of the non-clamped branch of
`NURBS::adjustParameter` (src/NURBS.hpp line 339): `while (u >= maxKnot)
u -= total`, with the same guard convention as `adjustUp`. -/
def adjustDown (maxKnot total u : ℚ) : ℚ :=
  if h : 0 < total ∧ maxKnot ≤ u then adjustDown maxKnot total (u - total) else u
termination_by (⌊(u - maxKnot) / total⌋ + 1).toNat
decreasing_by
  have ht : total ≠ 0 := ne_of_gt h.1
  have h1 : (u - total - maxKnot) / total = (u - maxKnot) / total - 1 := by
    field_simp
    ring
  rw [h1]
  have h2 : (0 : ℚ) ≤ (u - maxKnot) / total :=
    div_nonneg (by linarith [h.2]) (le_of_lt h.1)
  have h3 : (0 : ℤ) ≤ ⌊(u - maxKnot) / total⌋ := Int.floor_nonneg.mpr h2
  rw [Int.floor_sub_one]
  omega

/-- The list of integers `[a, a+1, ..., b]` (empty when `b < a`); models the
C++ `for (j = j1; j <= j2; j++)` loops of `dersBasisFuns`, whose bounds are
`int` expressions that may make the loop empty. -/
def intRange (a b : ℤ) : List ℤ := (List.range (b + 1 - a).toNat).map fun k => a + k

/-- The contents of the local 2-D array `ndu` of `NURBS::dersBasisFuns`
(src/NURBS.hpp lines 221-245) after its first phase, read at `(x, y)`.
The first phase is the `basisFuns` triangle augmented with bookkeeping:
iteration `j` stores the knot differences `ndu[j][r] = right[r+1] + left[j-r]`
for `r < j` (strictly lower triangle, closed form) and the basis values
`ndu[r][j]` for `r ≤ j` (upper triangle and diagonal, which is exactly row `j`
of `basisAux`: the recurrence divides by the just-stored lower entry, as
`basisFuns` does).  Each slot is written once, so the final array is this
case split.  Negative indices would be undefined behaviour in the C++; they
are never dereferenced in the executions modelled here and map to 0. -/
def nduFun (left right : ℕ → ℚ) (p : ℕ) (x y : ℤ) : ℚ :=
  if 0 ≤ x ∧ 0 ≤ y then
    if x ≤ y then basisAux left right y.toNat x.toNat
    else right (y.toNat + 1) + left (x.toNat - y.toNat)
  else 0

/-- State threaded through the second phase of `NURBS::dersBasisFuns`: the two
physical rows `a[0]`, `a[1]` of the alternating coefficient array, and the flat
buffer `data` of the `NURBS::Matrix` argument `ders`.  The C++ arrays are
uninitialized stack memory; every cell read by the algorithm (and every `ders`
cell later read by `curveDerivs`) is written beforehand, so the zero initial
store below is unobservable. -/
structure DersState where
  a0 : ℕ → ℚ
  a1 : ℕ → ℚ
  data : ℕ → ℚ

/-- Read `a[s][j]` (`s` is the C++ `s1`/`s2` row selector, always 0 or 1). -/
def aGet (st : DersState) (s j : ℕ) : ℚ := if s = 0 then st.a0 j else st.a1 j

/-- Write `a[s][j]`. -/
def aSet (st : DersState) (s j : ℕ) (x : ℚ) : DersState :=
  if s = 0 then { st with a0 := updFn st.a0 j x } else { st with a1 := updFn st.a1 j x }

/-- One iteration of the inner `k`-loop of the derivative phase of
`NURBS::dersBasisFuns` (src/NURBS.hpp lines 258-291) for fixed `r`: computes
`d` and the row `a[s2]`, then stores `ders[k][r] = d` through the buggy
`Matrix::operator[]` at flat offset `rows * k + r` (src/NURBS.hpp line 116
uses `rows`, the number of rows of the matrix, as the row stride).
`s1 = (k-1) % 2` and `s2 = k % 2` reproduce the row swapping. -/
def dersKStep (ndu : ℤ → ℤ → ℚ) (p rows r k : ℕ) (st : DersState) : DersState :=
  let s1 := (k - 1) % 2
  let s2 := k % 2
  let rk : ℤ := (r : ℤ) - (k : ℤ)
  let pk : ℤ := (p : ℤ) - (k : ℤ)
  let step1 : DersState × ℚ :=
    if (k : ℤ) ≤ (r : ℤ) then
      let v := aGet st s1 0 / ndu (pk + 1) rk
      (aSet st s2 0 v, v * ndu rk pk)
    else (st, 0)
  let j1 : ℤ := if -1 ≤ rk then 1 else -rk
  let j2 : ℤ := if (r : ℤ) - 1 ≤ pk then (k : ℤ) - 1 else (p : ℤ) - (r : ℤ)
  let step2 : DersState × ℚ :=
    (intRange j1 j2).foldl
      (fun sd j =>
        let v := (aGet sd.1 s1 j.toNat - aGet sd.1 s1 (j - 1).toNat) / ndu (pk + 1) (rk + j)
        (aSet sd.1 s2 j.toNat v, sd.2 + v * ndu (rk + j) pk))
      step1
  let step3 : DersState × ℚ :=
    if (r : ℤ) ≤ pk then
      let v := -(aGet step2.1 s1 (k - 1)) / ndu (pk + 1) (r : ℤ)
      (aSet step2.1 s2 k v, step2.2 + v * ndu (r : ℤ) pk)
    else step2
  { step3.1 with data := updFn step3.1.data (rows * k + r) step3.2 }

/-- `NURBS::dersBasisFuns` (src/NURBS.hpp lines 220-302) returning the flat
buffer of the `ders` matrix.  `i` is the span, `nn` the requested derivative
order (the C++ parameter `n`), `rows` the row count of the `Matrix` passed in
(`d+1` from `curveDerivs`), which `Matrix::operator[]` uses as the stride.
Phase 1 is `nduFun`; the load phase stores `ders[0][j] = ndu[j][p]` at offsets
`rows * 0 + j = j`; the derivative phase runs `r = 0..p` outer, `k = 1..nn`
inner; the final phase multiplies row `k` by `p (p-1) ... (p-k+1)`. -/
def dersBasisFuns (i : ℕ) (u : ℚ) (p nn rows : ℕ) (U : ℕ → ℚ) : ℕ → ℚ :=
  let left : ℕ → ℚ := fun k => u - U (i + 1 - k)
  let right : ℕ → ℚ := fun k => U (i + k) - u
  let ndu := nduFun left right p
  let loaded : ℕ → ℚ := (List.range (p + 1)).foldl
    (fun dd j => updFn dd j (basisAux left right p j)) (fun _ => 0)
  let st0 : DersState := ⟨fun _ => 0, fun _ => 0, loaded⟩
  let derived := (List.range (p + 1)).foldl
    (fun st r =>
      let st := { st with a0 := updFn st.a0 0 1 }
      (List.range nn).foldl (fun st k => dersKStep ndu p rows r (k + 1) st) st)
    st0
  let multiplied := ((List.range nn).foldl
    (fun df k =>
      ((List.range (p + 1)).foldl
        (fun dd j => updFn dd (rows * (k + 1) + j) (dd (rows * (k + 1) + j) * (df.2 : ℚ)))
        df.1,
       df.2 * (p - (k + 1))))
    (derived.data, p)).1
  multiplied

/-- `NURBS::curveDerivs` (src/NURBS.hpp lines 304-320): `du = min(d, p)`,
find the span, fill the `ders` matrix (a `Matrix(d+1, p+1)`, hence stride
`d+1`), then `CK[k] += P[span-p+j] * nders[k][j]` for `k = 0..du`; entries of
`CK` above `du` keep their default-constructed value.  Returns the array `CK`
as a function of `k`. -/
def curveDerivs (N n p : ℕ) (U : List ℚ) (P : List (geom.Vector N)) (u : ℚ)
    (d : ℕ) : ℕ → geom.Vector N :=
  let du := min d p
  let span := findSpan n p u U
  let nders := dersBasisFuns span u p du (d + 1) (fun k => U.getD k 0)
  fun k =>
    if k ≤ du then
      (List.range (p + 1)).foldl
        (fun acc j =>
          acc.addAssign ((P.getD (span - p + j) (geom.Vector.origin N)).smul
            (nders ((d + 1) * k + j))))
        (geom.Vector.origin N)
    else geom.Vector.origin N

/-- The spline state owned by `curve::Spline` (src/Spline.hpp lines 149-154):
control points, knot vector, degree and the `uniform`/`clamped` flags.
`curve::NURBS` adds no state, so evaluation is defined on this structure. -/
structure Spline (N : ℕ) where
  controlPoints : List (geom.Vector N)
  knotVector : List ℚ
  degree : ℕ
  uniform : Bool
  clamped : Bool
  deriving DecidableEq

/-- `NURBS::adjustParameter` (src/NURBS.hpp lines 322-341): clamped curves
clamp `u` into `[minKnot, maxKnot]`; non-clamped curves wrap by the domain
width `total = |maxKnot - minKnot|`.  `front`/`back` are `getD` at the ends
(the knot vector is nonempty in every execution covered below). -/
def adjustParameter {N : ℕ} (c : Spline N) (u : ℚ) : ℚ :=
  let minKnot := c.knotVector.getD 0 0
  let maxKnot := c.knotVector.getD (c.knotVector.length - 1) 0
  if c.clamped then
    min (max u minKnot) maxKnot
  else
    adjustDown maxKnot |maxKnot - minKnot| (adjustUp minKnot |maxKnot - minKnot| u)

/-- `NURBS::operator()` (src/NURBS.hpp lines 125-138): `p = degree`,
`n = controlPoints.size() - 1`, adjust the parameter, then `curvePoint`. -/
def position {N : ℕ} (c : Spline N) (t : ℚ) : geom.Vector N :=
  curvePoint N (c.controlPoints.length - 1) c.degree c.knotVector c.controlPoints
    (adjustParameter c t)

/-- `Spline::computeUniformKnotVector` (src/Spline.hpp lines 250-274).
If `uniform` is unset it returns the state unchanged; otherwise it rebuilds
the knot vector: clamped → `degree+1` zeros, then `(i - degree)/n` for
`i = degree+1 .. numPoints-1` (with `n = numPoints - degree`), then ones up to
`numKnots = numPoints + degree + 1` entries (the final loop continues from
`i = max (degree+1) numPoints`); non-clamped → `i / (numKnots - 1)` for all
`i`. -/
def computeUniformKnotVector {N : ℕ} (s : Spline N) : Spline N :=
  if ¬s.uniform then s
  else
    let numPoints := s.controlPoints.length
    let numKnots := numPoints + s.degree + 1
    let knots :=
      if s.clamped then
        (List.range (s.degree + 1)).map (fun _ => (0 : ℚ))
          ++ (List.range (numPoints - (s.degree + 1))).map
              (fun j => ((j + 1 : ℕ) : ℚ) / ((numPoints - s.degree : ℕ) : ℚ))
          ++ (List.range (numKnots - max (s.degree + 1) numPoints)).map (fun _ => (1 : ℚ))
      else
        (List.range numKnots).map (fun i => (i : ℚ) / ((numKnots - 1 : ℕ) : ℚ))
    { s with knotVector := knots }

/-- `Spline::setUniform` (src/Spline.hpp line 91): sets the flag and nothing
else. -/
def setUniform {N : ℕ} (b : Bool) (s : Spline N) : Spline N := { s with uniform := b }

/-- `Spline::setClamped` (src/Spline.hpp line 101): sets the flag and nothing
else. -/
def setClamped {N : ℕ} (b : Bool) (s : Spline N) : Spline N := { s with clamped := b }

/-- `Spline::pushControlPoint` (src/Spline.hpp lines 214-219): appends the
point, then regenerates the knot vector. -/
def pushControlPoint {N : ℕ} (pt : geom.Vector N) (s : Spline N) : Spline N :=
  computeUniformKnotVector { s with controlPoints := s.controlPoints ++ [pt] }

/-- The constructor `Spline(points, degree)` (src/Spline.hpp lines 175-184):
uniform and clamped, knot vector generated from the points. -/
def mkUniformSpline {N : ℕ} (points : List (geom.Vector N)) (degree : ℕ) : Spline N :=
  computeUniformKnotVector ⟨points, [], degree, true, true⟩

/-- `NURBS::derivative` (src/NURBS.hpp lines 140-153): adjust the parameter,
run `curveDerivs` with the requested order `d` and return `CK[d]`. -/
def derivative {N : ℕ} (c : Spline N) (t : ℚ) (d : ℕ) : geom.Vector N :=
  curveDerivs N (c.controlPoints.length - 1) c.degree c.knotVector c.controlPoints
    (adjustParameter c t) d d

/-! ### Bounds-checked evaluation model

The C++ evaluator performs no configuration validation.  The following
`Option`-valued model mirrors `operator()` access by access: `none` records
that the execution aborts with `std::out_of_range` (a `.at` call on a bad
index), dereferences out-of-bounds memory (an `operator[]`, `front` or `back`
on a bad index — undefined behaviour in C++), or falls into a non-terminating
parameter-wrapping loop.  When every access is in range the checked model
returns `some` of the value computed by the total model above (in-range
`.at`/`operator[]` reads agree with `getD`, and the `int` index arithmetic
agrees with the ℕ/ℤ arithmetic used there). -/

/-- `std::vector<Real>::at(i)` with an `int` index: `some` of the element when
`0 ≤ i < size`, `none` (the C++ throws `std::out_of_range`) otherwise. -/
def atC (l : List ℚ) (i : ℤ) : Option ℚ :=
  if 0 ≤ i ∧ i < (l.length : ℤ) then some (l.getD i.toNat 0) else none

/-- All knot indices dereferenced by the `basisFuns` loops for span `i` and
degree `p` are in range for a knot vector of length `len`: iteration `j`
(`j = 1..p`) reads `U.at(i+1-j)` and `U.at(i+j)`. -/
def basisAccessOk (i p len : ℕ) : Bool :=
  (List.range p).all fun j0 =>
    decide (0 ≤ (i : ℤ) + 1 - ((j0 : ℤ) + 1)) &&
    decide ((i : ℤ) + 1 - ((j0 : ℤ) + 1) < (len : ℤ)) &&
    decide ((i : ℤ) + ((j0 : ℤ) + 1) < (len : ℤ))

/-- All control-point indices `span - p + j` (`j = 0..p`) read by the
`curvePoint` accumulation loop are in range; these are plain `operator[]`
accesses, so a violation is undefined behaviour, not an exception. -/
def cpAccessOk (span p len : ℕ) : Bool :=
  (List.range (p + 1)).all fun j =>
    decide (0 ≤ (span : ℤ) - (p : ℤ) + (j : ℤ)) &&
    decide ((span : ℤ) - (p : ℤ) + (j : ℤ) < (len : ℤ))

/-- Bounds-checked `findSpan` binary-search loop; `none` on fuel exhaustion
(the C++ loop spinning without reaching a span) or on an out-of-range `.at`. -/
def findSpanLoopC (U : List ℚ) (u : ℚ) : ℕ → ℕ → ℕ → Option ℕ
  | 0, _, _ => none
  | fuel + 1, low, high => do
    let mid := (low + high) / 2
    let Um ← atC U mid
    let Um1 ← atC U ((mid : ℤ) + 1)
    if u < Um ∨ Um1 ≤ u then
      if u < Um then findSpanLoopC U u fuel low mid
      else findSpanLoopC U u fuel mid high
    else return mid

/-- Bounds-checked `NURBS::findSpan`. -/
def findSpanC (n p : ℕ) (u : ℚ) (U : List ℚ) : Option ℕ := do
  let Up ← atC U p
  if u ≤ Up then return p
  else do
    let Un1 ← atC U ((n : ℤ) + 1)
    if Un1 ≤ u then return n
    else findSpanLoopC U u (n + 1 - p) p (n + 1)

/-- Bounds-checked `NURBS::curvePoint`: find the span, check every knot access
of `basisFuns` and every control-point access of the accumulation loop, and
produce the total-model value when everything is in range. -/
def curvePointC (N n p : ℕ) (U : List ℚ) (Pw : List (geom.Vector N)) (u : ℚ) :
    Option (geom.Vector N) := do
  let span ← findSpanC n p u U
  if basisAccessOk span p U.length ∧ cpAccessOk span p Pw.length then
    return curvePoint N n p U Pw u
  else none

/-- Bounds-checked `NURBS::adjustParameter`: `front`/`back` on an empty knot
vector are undefined behaviour, and the non-clamped wrap loops never terminate
when the domain width is zero and the parameter lies outside the domain. -/
def adjustParameterC {N : ℕ} (c : Spline N) (u : ℚ) : Option ℚ :=
  if c.knotVector.length = 0 then none
  else if c.clamped then some (adjustParameter c u)
  else
    let minKnot := c.knotVector.getD 0 0
    let maxKnot := c.knotVector.getD (c.knotVector.length - 1) 0
    if |maxKnot - minKnot| ≤ 0 ∧ (u < minKnot ∨ maxKnot ≤ u) then none
    else some (adjustParameter c u)

/-- Bounds-checked `NURBS::operator()`.  (`controlPoints.length - 1` is the
C++ `int n`; every configuration considered below has at least one control
point, so the ℕ subtraction is exact.) -/
def positionC {N : ℕ} (c : Spline N) (t : ℚ) : Option (geom.Vector N) := do
  let u ← adjustParameterC c t
  curvePointC N (c.controlPoints.length - 1) c.degree c.knotVector c.controlPoints u

/-- The rational evaluation formula exactly as the specification words it
("form the homogeneous sum Σ Pi·wi·Ni over the p+1 influencing control
points, divide by Σ wi·Ni to recover the Euclidean point"), sharing the span
search and basis functions with the code model.  Introduced only to compare
`curvePoint` against the specified formula. -/
def rationalPointSpec (N n p : ℕ) (U : List ℚ) (Pw : List (geom.Vector N)) (u : ℚ) :
    geom.Vector N :=
  let span := findSpan n p u U
  let Nb := basisFuns span u p (fun k => U.getD k 0)
  let P := fun j => Pw.getD (span - p + j) (geom.Vector.origin N)
  let den : ℚ := ((List.range (p + 1)).map (fun j => (P j).w * Nb j)).sum
  ⟨fun x => ((List.range (p + 1)).map (fun j => (P j).v x * (P j).w * Nb j)).sum / den, 1⟩

end curve

namespace geom

/-- The `geom::Vector2` convenience constructor (src/Vector.hpp lines
324-330). -/
def Vector2 (x y w : ℚ) : Vector 2 := ⟨![x, y], w⟩

end geom

namespace curve

/-- Degree-1 rational example: control points `(0)` with weight 1 and `(1)`
with weight 3 on the clamped knot vector `[0,0,1,1]`. -/
def rationalLine : Spline 1 := ⟨[⟨![0], 1⟩, ⟨![1], 3⟩], [0, 0, 1, 1], 1, true, true⟩

/-- Unit-weight clamped cubic (a Bézier segment) on `[0,0,0,0,1,1,1,1]` with
control points `(2,0), (1,0), (1,1), (0,1)`. -/
def cubicExample : Spline 2 :=
  ⟨[geom.Vector2 2 0 1, geom.Vector2 1 0 1, geom.Vector2 1 1 1, geom.Vector2 0 1 1],
   [0, 0, 0, 0, 1, 1, 1, 1], 3, true, true⟩

/-- The demonstration square: degree 3, control points
`(0,0), (1,0), (1,1), (0,1)`, uniform and clamped. -/
def squareSpline : Spline 2 :=
  mkUniformSpline
    [geom.Vector2 0 0 1, geom.Vector2 1 0 1, geom.Vector2 1 1 1, geom.Vector2 0 1 1] 3

/-- A non-clamped cubic: four control points with the uniform non-clamped
knot vector `[0, 1/7, ..., 1]`. -/
def periodicSpline : Spline 2 :=
  ⟨[geom.Vector2 0 0 1, geom.Vector2 1 0 1, geom.Vector2 1 1 1, geom.Vector2 0 1 1],
   [0, 1/7, 2/7, 3/7, 4/7, 5/7, 6/7, 1], 3, true, false⟩

/-- Degree-2 "curve" with only two control points: the invalid-configuration
example for the error-handling claim (degree exceeds `numControlPoints - 1`;
the knot vector has the matching length `2 + 2 + 1 = 5`). -/
def invalidSpline : Spline 2 :=
  ⟨[geom.Vector2 0 0 1, geom.Vector2 1 1 1], [0, 0, 0, 1, 1], 2, true, true⟩

/-- A second invalid configuration for the error-handling claim: degree 1
with three control points but ten knots, so the knot-vector length does not
equal `numControlPoints + degree + 1 = 5`.  Every container access of an
evaluation stays in range on this instance. -/
def missizedSpline : Spline 2 :=
  ⟨[geom.Vector2 0 0 1, geom.Vector2 1 0 1, geom.Vector2 1 1 1],
   [0, 0, 1, 2, 3, 4, 5, 6, 7, 8], 1, true, true⟩

end curve

/-! ## Theorems -/

namespace curve

/-- Folding `addAssign` never changes the weight component: `operator+=` only
touches the coordinates. -/
theorem foldl_addAssign_w {N : ℕ} (g : ℕ → geom.Vector N) (l : List ℕ)
    (init : geom.Vector N) :
    (l.foldl (fun acc j => acc.addAssign (g j)) init).w = init.w := by
  induction l generalizing init with
  | nil => rfl
  | cons x xs ih => simpa [geom.Vector.addAssign] using ih _

/-- C9: Every point returned by `position` or `derivative` has weight exactly
1, for every curve configuration and every input: `operator+`, scalar
`operator*` and scalar `operator/` on `geom::Vector` construct their result
with the default weight 1 regardless of the operands' weights, and the
homogeneous accumulators start from the default-constructed point, so
control-point weights never propagate into evaluation results. -/
theorem evaluation_weight_one {N : ℕ} (a b : geom.Vector N) (r : ℚ) (c : Spline N)
    (t : ℚ) (k : ℕ) :
    (a.add b).w = 1 ∧ (a.smul r).w = 1 ∧ (a.divScalar r).w = 1 ∧
      (position c t).w = 1 ∧ (derivative c t k).w = 1 := by
  refine ⟨rfl, rfl, rfl, rfl, ?_⟩
  show (curveDerivs N (c.controlPoints.length - 1) c.degree c.knotVector
    c.controlPoints (adjustParameter c t) k k).w = 1
  rw [curveDerivs]
  dsimp only
  split
  · rw [foldl_addAssign_w]
    rfl
  · rfl

/-- C1 (failing-input evaluation): on the rational degree-1 curve with
weights `(1, 3)`, the code's `position(1/2)` is `3/2` — the homogeneous sum
`Σ Pi·wi·Ni = 0·1·(1/2) + 1·3·(1/2)` left undivided, because
`Cw.weight()` is always 1 (the vector operators reset the weight) — whereas
the dehomogenized value demanded by the claim is
`(Σ Pi·wi·Ni)/(Σ wi·Ni) = (3/2)/2 = 3/4`. -/
theorem curvePoint_skips_dehomogenization :
    (position rationalLine (1/2)).v 0 = 3/2 ∧
      (rationalPointSpec 1 1 1 [0, 0, 1, 1] rationalLine.controlPoints (1/2)).v 0 = 3/4 := by
  constructor <;> with_unfolding_all rfl

/-- C3 (failing-input evaluation): on the unit-weight cubic `cubicExample`,
`derivative(1/2, 2)` returns `(3, 0)`; the same second-derivative coefficients
computed by `curveDerivs` when called with `d = 3` (where the `Matrix` stride
`rows = d+1` equals the row length `p+1`, so `operator[]`'s `rows * i`
addressing is accidentally correct) yield `(0, 0)`, the true second derivative
of this Bézier segment at `1/2`.  With `d = 2` the stride is `3` for rows of
length `4`, so `ders[1][3]` and `ders[2][0]` alias and the returned derivative
is corrupted. -/
theorem derivative_matrix_stride_bug :
    (derivative cubicExample (1/2) 2).v 0 = 3 ∧
      (derivative cubicExample (1/2) 2).v 1 = 0 ∧
      ((curveDerivs 2 3 3 [0, 0, 0, 0, 1, 1, 1, 1] cubicExample.controlPoints (1/2) 3) 2).v 0
        = 0 ∧
      ((curveDerivs 2 3 3 [0, 0, 0, 0, 1, 1, 1, 1] cubicExample.controlPoints (1/2) 3) 2).v 1
        = 0 := by
  refine ⟨?_, ?_, ?_, ?_⟩ <;> with_unfolding_all rfl

/-- C8 (counterexample): starting from the demonstration square spline (whose
clamped uniform knot vector is `[0,0,0,0,1,1,1,1]`), `setClamped(false)`
leaves the knot vector unchanged, which is NOT what regeneration under the
new flags would produce — so the setter does not trigger immediate
regeneration and the state is inconsistent with the new flag value. -/
theorem setClamped_does_not_regenerate :
    (setClamped false squareSpline).knotVector = squareSpline.knotVector ∧
      (setClamped false squareSpline).knotVector ≠
        (computeUniformKnotVector (setClamped false squareSpline)).knotVector := by
  constructor
  · rfl
  · intro h
    exact absurd (congrArg (fun l => l.getD 4 0) h) (by with_unfolding_all decide)

/-- The leaf count of `Simpson::aux` is bounded by `2 ^ bottom.toNat`:
every call either returns immediately (one leaf) or splits into two calls
with budget `bottom - 1`.  Stated with an explicit bound `m` on `bottom.toNat`
to drive the induction. -/
theorem simpsonAux_leafCount_le (m : ℕ) :
    ∀ (f : ℚ → ℚ) (a b eps S fa fb fc : ℚ) (bottom : ℤ), bottom.toNat ≤ m →
      (integral.simpsonAux f a b eps S fa fb fc bottom).2 ≤ 2 ^ bottom.toNat := by
  induction m with
  | zero =>
    intro f a b eps S fa fb fc bottom hm
    rw [integral.simpsonAux]
    dsimp only
    split
    · exact Nat.one_le_two_pow
    · rename_i hb
      rw [not_or] at hb
      omega
  | succ m ih =>
    intro f a b eps S fa fb fc bottom hm
    rw [integral.simpsonAux]
    dsimp only
    split
    · exact Nat.one_le_two_pow
    · rename_i hb
      rw [not_or] at hb
      have h1 : 0 < bottom := by omega
      have h2 : (bottom - 1).toNat ≤ m := by omega
      have ht : bottom.toNat = (bottom - 1).toNat + 1 := by omega
      dsimp only
      rw [ht, pow_succ, mul_two]
      exact Nat.add_le_add (ih _ _ _ _ _ _ _ _ _ h2) (ih _ _ _ _ _ _ _ _ _ h2)

/-- C4: the adaptive Simpson integration always terminates with an estimate
(the model is a total function) and performs at most `2 ^ maxDepth` leaf
interval evaluations, for every integrand, interval, accuracy and maximum
recursion depth: each level of recursion strictly decreases the depth budget
and a call with exhausted budget returns its Richardson-extrapolated estimate
instead of recursing. -/
theorem simpson_leafCount_bounded (f : ℚ → ℚ) (a b eps : ℚ) (maxDepth : ℤ) :
    (integral.simpson f a b eps maxDepth).2 ≤ 2 ^ maxDepth.toNat := by
  rw [integral.simpson]
  exact simpsonAux_leafCount_le maxDepth.toNat f a b eps _ _ _ _ maxDepth le_rfl

/-- `Simpson::aux` on a zero-width interval with a zero incoming estimate
returns exactly 0: all refined estimates vanish, at every recursion depth. -/
theorem simpsonAux_zero_width (m : ℕ) :
    ∀ (f : ℚ → ℚ) (a eps fa fb fc : ℚ) (bottom : ℤ), bottom.toNat ≤ m →
      (integral.simpsonAux f a a eps 0 fa fb fc bottom).1 = 0 := by
  induction m with
  | zero =>
    intro f a eps fa fb fc bottom hm
    rw [integral.simpsonAux]
    dsimp only
    have hc : (a + a) / 2 = a := by ring
    split
    · simp
    · rename_i hb
      rw [not_or] at hb
      omega
  | succ m ih =>
    intro f a eps fa fb fc bottom hm
    rw [integral.simpsonAux]
    dsimp only
    simp only [show (a + a) / 2 = a from by ring, sub_self, zero_div, zero_mul]
    split
    · simp
    · rename_i hb
      rw [not_or] at hb
      have h2 : (bottom - 1).toNat ≤ m := by omega
      dsimp only
      rw [ih f a (eps / 2) fa fc (f a) (bottom - 1) h2,
        ih f a (eps / 2) fc fb (f a) (bottom - 1) h2]
      norm_num

/-- C10: integrating over a zero-width interval returns exactly 0, for every
integrand, accuracy and maximum depth; and for a nonnegative accuracy the
acceptance test `|S2 - S| ≤ 15 ε` holds immediately (all estimates are 0), so
the call returns after a single leaf evaluation without recursing. -/
theorem simpson_zero_width (f : ℚ → ℚ) (a eps : ℚ) (maxDepth : ℤ) :
    (integral.simpson f a a eps maxDepth).1 = 0 ∧
      (0 ≤ eps → (integral.simpson f a a eps maxDepth).2 = 1) := by
  constructor
  · rw [integral.simpson]
    simp only [sub_self, zero_div, zero_mul]
    exact simpsonAux_zero_width maxDepth.toNat f a eps _ _ _ maxDepth le_rfl
  · intro he
    rw [integral.simpson, integral.simpsonAux]
    split
    · rfl
    · rename_i hb
      rw [not_or] at hb
      refine absurd ?_ hb.2
      have hz : ∀ x y z : ℚ, (a - a) / 12 * x + (a - a) / 12 * y - (a - a) / 6 * z = 0 := by
        intro x y z
        ring
      rw [hz, abs_zero]
      linarith

/-- C10 witness: a concrete zero-width integration. -/
theorem simpson_zero_width_witness :
    (integral.simpson (fun x => x * x) 1 1 (1/100) 5).1 = 0 ∧
      (integral.simpson (fun x => x * x) 1 1 (1/100) 5).2 = 1 :=
  ⟨(simpson_zero_width (fun x => x * x) 1 (1/100) 5).1,
   (simpson_zero_width (fun x => x * x) 1 (1/100) 5).2 (by norm_num)⟩

/-- `getD` is monotone on a `≤`-sorted list (within bounds). -/
theorem getD_mono_of_sorted {U : List ℚ} (hs : List.Sorted (· ≤ ·) U) {i j : ℕ}
    (hij : i ≤ j) (hj : j < U.length) : U.getD i 0 ≤ U.getD j 0 := by
  have hi : i < U.length := lt_of_le_of_lt hij hj
  rw [List.getD_eq_getElem U 0 hi, List.getD_eq_getElem U 0 hj]
  rcases eq_or_lt_of_le hij with rfl | hlt
  · exact le_rfl
  · exact List.pairwise_iff_get.mp hs ⟨i, hi⟩ ⟨j, hj⟩ hlt

/-- The `findSpan` binary-search loop returns an index `r` with
`low ≤ r < high` and `U[r] ≤ u < U[r+1]`, given the loop invariant
`U[low] ≤ u < U[high]` and at least `high - low` iterations of fuel. -/
theorem findSpanLoop_mem (U : List ℚ) (u : ℚ) :
    ∀ (fuel low high : ℕ), low < high → high - low ≤ fuel →
      U.getD low 0 ≤ u → u < U.getD high 0 →
      (∀ i j, low ≤ i → i ≤ j → j ≤ high → U.getD i 0 ≤ U.getD j 0) →
      low ≤ findSpanLoop U u fuel low high ∧ findSpanLoop U u fuel low high < high ∧
        U.getD (findSpanLoop U u fuel low high) 0 ≤ u ∧
        u < U.getD (findSpanLoop U u fuel low high + 1) 0 := by
  intro fuel
  induction fuel with
  | zero =>
    intro low high h1 h2 _ _ _
    omega
  | succ fuel ih =>
    intro low high hlh hfuel hlo hhi hmono
    rw [findSpanLoop]
    have hmid1 : low ≤ (low + high) / 2 := by omega
    have hmid2 : (low + high) / 2 < high := by omega
    split
    · rename_i hcond
      split
      · rename_i hlt
        have hne : low < (low + high) / 2 := by
          rcases eq_or_lt_of_le hmid1 with he | h
          · rw [← he] at hlt
            exact absurd hlt (not_lt.mpr hlo)
          · exact h
        have hres := ih low ((low + high) / 2) hne (by omega) hlo hlt
          (fun i j h1 h2 h3 => hmono i j h1 h2 (le_trans h3 (le_of_lt hmid2)))
        exact ⟨hres.1, lt_trans hres.2.1 hmid2, hres.2.2⟩
      · rename_i hnlt
        have hge : U.getD ((low + high) / 2 + 1) 0 ≤ u := by
          rcases hcond with h | h
          · exact absurd h hnlt
          · exact h
        have hne : low < (low + high) / 2 := by
          by_contra hc
          have he : (low + high) / 2 = low := by omega
          have hh : high = low + 1 := by omega
          rw [he, ← hh] at hge
          exact absurd hhi (not_lt.mpr hge)
        have hres := ih ((low + high) / 2) high hmid2 (by omega) (not_lt.mp hnlt) hhi
          (fun i j h1 h2 h3 => hmono i j (le_trans (le_of_lt hne) h1) h2 h3)
        exact ⟨le_trans (le_of_lt hne) hres.1, hres.2⟩
    · rename_i hcond
      rw [not_or] at hcond
      exact ⟨hmid1, hmid2, not_lt.mp hcond.1, lt_of_not_le hcond.2⟩

/-- C5 (amended): for every non-decreasing knot vector of length
`numControlPoints + degree + 1` with `degree + 1 ≤ numControlPoints`
(`n = numControlPoints - 1`), `findSpan` returns an index in `[degree, n]`;
`u ≤ knots[degree]` snaps to `degree`; `u ≥ knots[n+1]` snaps to `n`
*provided `knots[degree] < u`* (the two boundary checks are performed in this
order, and the first one wins when both hold); and for interior `u` the binary
search returns the span whose knot interval contains `u`. -/
theorem findSpan_spec (n p : ℕ) (u : ℚ) (U : List ℚ)
    (hlen : U.length = n + p + 2) (hpn : p ≤ n) (hs : List.Sorted (· ≤ ·) U) :
    (p ≤ findSpan n p u U ∧ findSpan n p u U ≤ n) ∧
      (u ≤ U.getD p 0 → findSpan n p u U = p) ∧
      (U.getD p 0 < u → U.getD (n + 1) 0 ≤ u → findSpan n p u U = n) ∧
      (U.getD p 0 < u → u < U.getD (n + 1) 0 →
        U.getD (findSpan n p u U) 0 ≤ u ∧ u < U.getD (findSpan n p u U + 1) 0) := by
  by_cases h1 : u ≤ U.getD p 0
  · rw [findSpan, if_pos h1]
    exact ⟨⟨le_rfl, hpn⟩, fun _ => rfl,
      fun hlt _ => absurd h1 (not_le.mpr hlt),
      fun hlt _ => absurd h1 (not_le.mpr hlt)⟩
  · by_cases h2 : U.getD (n + 1) 0 ≤ u
    · rw [findSpan, if_neg h1, if_pos h2]
      exact ⟨⟨hpn, le_rfl⟩, fun hu => absurd hu h1, fun _ _ => rfl,
        fun _ hlt => absurd h2 (not_le.mpr hlt)⟩
    · rw [findSpan, if_neg h1, if_neg h2]
      have hres := findSpanLoop_mem U u (n + 1 - p) p (n + 1) (by omega) (by omega)
        (le_of_lt (not_le.mp h1)) (not_le.mp h2)
        (fun i j hi hij hj => getD_mono_of_sorted hs hij (by omega))
      exact ⟨⟨hres.1, by omega⟩, fun hu => absurd hu h1, fun _ h2u => absurd h2u h2,
        fun _ _ => hres.2.2⟩

/-- C5 witness: `degree 1`, four control points, knots `[0,0,1,2,3,3]`,
`u = 3/2` in the interior. -/
theorem findSpan_spec_witness :
    (1 ≤ findSpan 3 1 (3/2) [0, 0, 1, 2, 3, 3] ∧ findSpan 3 1 (3/2) [0, 0, 1, 2, 3, 3] ≤ 3) ∧
      ((3/2 : ℚ) ≤ ([0, 0, 1, 2, 3, 3] : List ℚ).getD 1 0 →
        findSpan 3 1 (3/2) [0, 0, 1, 2, 3, 3] = 1) ∧
      (([0, 0, 1, 2, 3, 3] : List ℚ).getD 1 0 < 3/2 →
        ([0, 0, 1, 2, 3, 3] : List ℚ).getD 4 0 ≤ 3/2 →
        findSpan 3 1 (3/2) [0, 0, 1, 2, 3, 3] = 3) ∧
      (([0, 0, 1, 2, 3, 3] : List ℚ).getD 1 0 < 3/2 →
        (3/2 : ℚ) < ([0, 0, 1, 2, 3, 3] : List ℚ).getD 4 0 →
        ([0, 0, 1, 2, 3, 3] : List ℚ).getD (findSpan 3 1 (3/2) [0, 0, 1, 2, 3, 3]) 0 ≤ 3/2 ∧
          (3/2 : ℚ) < ([0, 0, 1, 2, 3, 3] : List ℚ).getD
            (findSpan 3 1 (3/2) [0, 0, 1, 2, 3, 3] + 1) 0) :=
  findSpan_spec 3 1 (3/2) [0, 0, 1, 2, 3, 3] rfl (by omega) (by decide)

/-- C5 (counterexample): the claim's unconditional max-side snapping fails on
a degenerate (but non-decreasing, correctly sized) knot vector in which
`knots[degree] = knots[numControlPoints]`: with `degree 1`, three control
points, knots `[0,0,0,0,0]` and `u = 0`, `u ≥ knots[numControlPoints]` holds
yet `findSpan` returns `degree = 1`, not `numControlPoints - 1 = 2`, because
the `u ≤ knots[degree]` check is performed first. -/
theorem findSpan_degenerate_max_snap :
    List.Sorted (· ≤ ·) ([0, 0, 0, 0, 0] : List ℚ) ∧
      ([0, 0, 0, 0, 0] : List ℚ).length = 2 + 1 + 2 ∧
      ([0, 0, 0, 0, 0] : List ℚ).getD 3 0 ≤ (0 : ℚ) ∧
      findSpan 2 1 0 [0, 0, 0, 0, 0] = 1 ∧
      findSpan 2 1 0 [0, 0, 0, 0, 0] ≠ 2 := by
  refine ⟨by decide, rfl, by decide, by decide, by decide⟩

/-- C6: for every non-clamped curve whose knot vector has positive domain
width `maxKnot - minKnot`, the parameter adjustment maps `u + width` and `u`
to the same representative, so `position(u + width) = position(u)`: the
parametrization is periodic with period the domain width. -/
theorem position_periodic {N : ℕ} (c : Spline N) (hcl : c.clamped = false)
    (hw : c.knotVector.getD 0 0 < c.knotVector.getD (c.knotVector.length - 1) 0) (u : ℚ) :
    position c
        (u + (c.knotVector.getD (c.knotVector.length - 1) 0 - c.knotVector.getD 0 0)) =
      position c u := by
  set mn := c.knotVector.getD 0 0 with hmn
  set mx := c.knotVector.getD (c.knotVector.length - 1) 0 with hmx
  have hT : 0 < mx - mn := by linarith
  suffices h : adjustParameter c (u + (mx - mn)) = adjustParameter c u by
    unfold position
    rw [h]
  unfold adjustParameter
  rw [hcl]
  simp only [Bool.false_eq_true, if_false, ← hmn, ← hmx, abs_of_pos hT]
  by_cases hu : u < mn
  · have hstep : adjustUp mn (mx - mn) u = adjustUp mn (mx - mn) (u + (mx - mn)) := by
      rw [adjustUp]
      rw [dif_pos ⟨hT, hu⟩]
    rw [hstep]
  · have h1 : adjustUp mn (mx - mn) u = u := by
      rw [adjustUp, dif_neg]
      exact fun hc => hu hc.2
    have h2 : adjustUp mn (mx - mn) (u + (mx - mn)) = u + (mx - mn) := by
      rw [adjustUp, dif_neg]
      rintro ⟨-, hlt⟩
      rw [not_lt] at hu
      linarith
    rw [h1, h2]
    have h3 : adjustDown mx (mx - mn) (u + (mx - mn)) =
        adjustDown mx (mx - mn) (u + (mx - mn) - (mx - mn)) := by
      rw [adjustDown]
      rw [dif_pos ⟨hT, by rw [not_lt] at hu; linarith⟩]
    rw [h3]
    have h4 : u + (mx - mn) - (mx - mn) = u := by ring
    rw [h4]

/-- C6 witness: the non-clamped cubic `periodicSpline` with domain `[0, 1]`
evaluated at `1/5` and `1/5 + 1`. -/
theorem position_periodic_witness :
    position periodicSpline
        (1/5 + (periodicSpline.knotVector.getD (periodicSpline.knotVector.length - 1) 0 -
          periodicSpline.knotVector.getD 0 0)) =
      position periodicSpline (1/5) :=
  position_periodic periodicSpline rfl (by with_unfolding_all decide) (1/5)

/-- Extensionality for the vector model. -/
theorem vector_ext {N : ℕ} {a b : geom.Vector N} (hv : ∀ x, a.v x = b.v x)
    (hw : a.w = b.w) : a = b := by
  cases a
  cases b
  simp only at hv hw
  simp only [geom.Vector.mk.injEq]
  exact ⟨funext hv, hw⟩

/-- An `addAssign` fold over terms whose coordinates all vanish leaves the
accumulator unchanged. -/
theorem foldl_no_contrib {N : ℕ} (g : ℕ → geom.Vector N) (l : List ℕ)
    (init : geom.Vector N) (hg : ∀ j ∈ l, ∀ x, (g j).v x = 0) :
    l.foldl (fun acc j => acc.addAssign (g j)) init = init := by
  induction l generalizing init with
  | nil => rfl
  | cons a t ih =>
    have hstep : init.addAssign (g a) = init := by
      refine vector_ext (fun x => ?_) rfl
      show init.v x + (g a).v x = init.v x
      rw [hg a (List.mem_cons_self a t) x, add_zero]
    rw [List.foldl_cons, hstep]
    exact ih _ (fun j hj x => hg j (List.mem_cons_of_mem a hj) x)

/-- When all the `left` knot differences of the triangle vanish (the first
`p+1` knots coincide and `u` is that common value) and `right 1 ≠ 0`, every
row of the Cox-de Boor triangle is the indicator of index 0. -/
theorem basisAux_indicator_first (left right : ℕ → ℚ) (p : ℕ)
    (hleft : ∀ k, 1 ≤ k → k ≤ p → left k = 0) (hr1 : right 1 ≠ 0) :
    ∀ j, j ≤ p → ∀ r, basisAux left right j r = if r = 0 then 1 else 0 := by
  intro j
  induction j with
  | zero => intro _ r; rfl
  | succ j ih =>
    intro hj r
    have hprev := ih (by omega)
    show basisRow left right (j + 1) (basisAux left right j) r = _
    unfold basisRow
    rcases lt_trichotomy r (j + 1) with hr | hr | hr
    · rcases Nat.eq_zero_or_pos r with rfl | hrpos
      · have e1 : left (j + 1 - 0) = 0 := hleft _ (by omega) (by omega)
        rw [if_pos hr, if_pos rfl, hprev 0, e1]
        show 0 + right 1 * ((if True then (1:ℚ) else 0) / (right 1 + 0)) = 1
        rw [if_pos trivial, add_zero, zero_add, mul_one_div, div_self hr1]
      · have e1 : left (j + 1 - r + 1) = 0 := hleft _ (by omega) (by omega)
        have hr0 : ¬(r = 0) := by omega
        rw [if_pos hr, if_neg hr0, hprev r, e1, if_neg hr0]
        simp
    · have e1 : left 1 = 0 := hleft 1 (by omega) (by omega)
      rw [if_neg (by omega), if_pos hr, e1, zero_mul, if_neg (by omega)]
    · rw [if_neg (by omega), if_neg (by omega), hprev r, if_neg (by omega)]

/-- When all the `right` knot differences vanish (the last `p+1` knots
coincide and `u` is that common value) and `left 1 ≠ 0`, row `j` of the
Cox-de Boor triangle is the indicator of index `j`. -/
theorem basisAux_indicator_last (left right : ℕ → ℚ) (p : ℕ)
    (hright : ∀ k, 1 ≤ k → k ≤ p → right k = 0) (hl1 : left 1 ≠ 0) :
    ∀ j, j ≤ p → ∀ r, basisAux left right j r = if r = j then 1 else 0 := by
  intro j
  induction j with
  | zero => intro _ r; rfl
  | succ j ih =>
    intro hj r
    have hprev := ih (by omega)
    show basisRow left right (j + 1) (basisAux left right j) r = _
    unfold basisRow
    rcases lt_trichotomy r (j + 1) with hr | hr | hr
    · rcases Nat.eq_zero_or_pos r with rfl | hrpos
      · have e1 : right 1 = 0 := hright 1 (by omega) (by omega)
        rw [if_pos hr, if_pos rfl, e1, zero_mul, zero_add, if_neg (by omega)]
      · have e1 : right (r + 1) = 0 := hright (r + 1) (by omega) (by omega)
        have hr0 : ¬(r = 0) := by omega
        have hr1j : ¬(r - 1 = j) := by omega
        rw [if_pos hr, if_neg hr0, hprev (r - 1), if_neg hr1j, e1]
        rw [zero_div, mul_zero, zero_mul, add_zero, if_neg (by omega)]
    · have e1 : right (j + 1) = 0 := hright (j + 1) (by omega) (by omega)
      rw [if_neg (by omega), if_pos hr, hprev (j + 1 - 1), e1,
        if_pos (show j + 1 - 1 = j from rfl), zero_add, mul_one_div, div_self hl1,
        if_pos hr]
    · have hrj : ¬(r = j) := by omega
      rw [if_neg (by omega), if_neg (by omega), hprev r, if_neg hrj, if_neg (by omega)]

/-- C2: a clamped curve with unit weights, a valid configuration
(`numKnots = numControlPoints + degree + 1`, non-decreasing knots, at least
`degree+1` control points) and end-knot multiplicity exactly `degree+1`
(`U[0] = ... = U[p] < U[p+1]` and `U[n] < U[n+1] = ... = U[n+p+1]`)
interpolates its endpoints exactly: `position` at the domain minimum is the
first control point, and at the domain maximum the last control point. -/
theorem clamped_endpoint_interpolation {N : ℕ} (n p : ℕ) (un : Bool)
    (Pw : List (geom.Vector N)) (U : List ℚ)
    (hlen : U.length = n + p + 2) (hPw : Pw.length = n + 1) (hpn : p ≤ n)
    (hs : List.Sorted (· ≤ ·) U)
    (hfirst : ∀ k < p + 1, U.getD k 0 = U.getD 0 0)
    (hlast : ∀ k < p + 1, U.getD (n + 1 + k) 0 = U.getD (n + p + 1) 0)
    (hs1 : U.getD p 0 < U.getD (p + 1) 0)
    (hs2 : U.getD n 0 < U.getD (n + 1) 0)
    (hw : ∀ P ∈ Pw, P.w = 1) :
    position (⟨Pw, U, p, un, true⟩ : Spline N) (U.getD 0 0) =
        Pw.getD 0 (geom.Vector.origin N) ∧
      position (⟨Pw, U, p, un, true⟩ : Spline N) (U.getD (n + p + 1) 0) =
        Pw.getD n (geom.Vector.origin N) := by
  have hmx : U.getD (U.length - 1) 0 = U.getD (n + p + 1) 0 := by
    rw [show U.length - 1 = n + p + 1 from by omega]
  have h0le : U.getD 0 0 ≤ U.getD (n + p + 1) 0 :=
    getD_mono_of_sorted hs (by omega) (by omega)
  constructor
  · -- domain minimum
    have hadj1 : adjustParameter (⟨Pw, U, p, un, true⟩ : Spline N) (U.getD 0 0) =
        U.getD 0 0 := by
      show min (max (U.getD 0 0) (U.getD 0 0)) (U.getD (U.length - 1) 0) = U.getD 0 0
      rw [max_self, hmx]
      exact min_eq_left h0le
    have hspan1 : findSpan n p (U.getD 0 0) U = p := by
      rw [findSpan, if_pos (le_of_eq (hfirst p (by omega)).symm)]
    have hNb1 : ∀ r, basisFuns p (U.getD 0 0) p (fun k => U.getD k 0) r =
        if r = 0 then 1 else 0 := by
      intro r
      refine basisAux_indicator_first _ _ p ?_ ?_ p le_rfl r
      · intro k hk1 hkp
        show U.getD 0 0 - U.getD (p + 1 - k) 0 = 0
        rw [hfirst (p + 1 - k) (by omega), sub_self]
      · show U.getD (p + 1) 0 - U.getD 0 0 ≠ 0
        refine sub_ne_zero.mpr (ne_of_gt ?_)
        calc U.getD 0 0 = U.getD p 0 := (hfirst p (by omega)).symm
          _ < U.getD (p + 1) 0 := hs1
    have hw0 : (Pw.getD 0 (geom.Vector.origin N)).w = 1 := by
      refine hw _ ?_
      rw [List.getD_eq_getElem Pw _ (by omega)]
      exact List.getElem_mem _
    show curvePoint N ((Pw.length) - 1) p U Pw
        (adjustParameter (⟨Pw, U, p, un, true⟩ : Spline N) (U.getD 0 0)) = _
    rw [hadj1, hPw, Nat.add_sub_cancel, curvePoint]
    dsimp only
    rw [hspan1]
    simp only [Nat.sub_self, Nat.zero_add]
    rw [List.range_succ_eq_map, List.foldl_cons]
    rw [foldl_no_contrib _ _ _ ?_]
    · refine vector_ext (fun x => ?_) ?_
      · show ((geom.Vector.origin N).v x +
            ((Pw.getD (0 + 0) (geom.Vector.origin N)).v x *
                (Pw.getD (0 + 0) (geom.Vector.origin N)).w) *
              basisFuns p (U.getD 0 0) p (fun k => U.getD k 0) 0) /
            ((geom.Vector.origin N).w) = (Pw.getD 0 (geom.Vector.origin N)).v x
        rw [hNb1 0, if_pos rfl]
        show (0 + (Pw.getD 0 (geom.Vector.origin N)).v x *
            (Pw.getD 0 (geom.Vector.origin N)).w * 1) / 1 =
          (Pw.getD 0 (geom.Vector.origin N)).v x
        rw [hw0]
        ring
      · show (1 : ℚ) = (Pw.getD 0 (geom.Vector.origin N)).w
        exact hw0.symm
    · intro j hj x
      rw [List.mem_map] at hj
      obtain ⟨y, -, rfl⟩ := hj
      show ((Pw.getD (y + 1) (geom.Vector.origin N)).v x *
          (Pw.getD (y + 1) (geom.Vector.origin N)).w) *
          basisFuns p (U.getD 0 0) p (fun k => U.getD k 0) (y + 1) = 0
      rw [hNb1 (y + 1), if_neg (by omega), mul_zero]
  · -- domain maximum
    have hadj2 : adjustParameter (⟨Pw, U, p, un, true⟩ : Spline N)
        (U.getD (n + p + 1) 0) = U.getD (n + p + 1) 0 := by
      show min (max (U.getD (n + p + 1) 0) (U.getD 0 0)) (U.getD (U.length - 1) 0) =
        U.getD (n + p + 1) 0
      rw [hmx, max_eq_left h0le, min_self]
    have hlast0 : U.getD (n + 1) 0 = U.getD (n + p + 1) 0 := by
      have h1 := hlast 0 (by omega)
      rw [show n + 1 + 0 = n + 1 from rfl] at h1
      exact h1
    have hUp_lt : U.getD p 0 < U.getD (n + p + 1) 0 :=
      lt_of_lt_of_le hs1 (getD_mono_of_sorted hs (by omega) (by omega))
    have hspan2 : findSpan n p (U.getD (n + p + 1) 0) U = n := by
      rw [findSpan, if_neg (not_le.mpr hUp_lt), if_pos (le_of_eq hlast0)]
    have hNb2 : ∀ r, basisFuns n (U.getD (n + p + 1) 0) p (fun k => U.getD k 0) r =
        if r = p then 1 else 0 := by
      intro r
      refine basisAux_indicator_last _ _ p ?_ ?_ p le_rfl r
      · intro k hk1 hkp
        show U.getD (n + k) 0 - U.getD (n + p + 1) 0 = 0
        have h2 := hlast (k - 1) (by omega)
        rw [show n + 1 + (k - 1) = n + k from by omega] at h2
        rw [h2, sub_self]
      · show U.getD (n + p + 1) 0 - U.getD (n + 1 - 1) 0 ≠ 0
        rw [show n + 1 - 1 = n from rfl]
        refine sub_ne_zero.mpr (ne_of_gt ?_)
        calc U.getD n 0 < U.getD (n + 1) 0 := hs2
          _ = U.getD (n + p + 1) 0 := hlast0
    have hwn : (Pw.getD n (geom.Vector.origin N)).w = 1 := by
      refine hw _ ?_
      rw [List.getD_eq_getElem Pw _ (by omega)]
      exact List.getElem_mem _
    have hnp : n - p + p = n := by omega
    show curvePoint N ((Pw.length) - 1) p U Pw
        (adjustParameter (⟨Pw, U, p, un, true⟩ : Spline N) (U.getD (n + p + 1) 0)) = _
    rw [hadj2, hPw, Nat.add_sub_cancel, curvePoint]
    dsimp only
    rw [hspan2]
    rw [List.range_succ, List.foldl_append]
    rw [foldl_no_contrib _ (List.range p) _ ?_]
    · rw [List.foldl_cons, List.foldl_nil]
      refine vector_ext (fun x => ?_) ?_
      · show ((geom.Vector.origin N).v x +
            ((Pw.getD (n - p + p) (geom.Vector.origin N)).v x *
                (Pw.getD (n - p + p) (geom.Vector.origin N)).w) *
              basisFuns n (U.getD (n + p + 1) 0) p (fun k => U.getD k 0) p) /
            ((geom.Vector.origin N).w) = (Pw.getD n (geom.Vector.origin N)).v x
        rw [hNb2 p, if_pos rfl, hnp]
        show (0 + (Pw.getD n (geom.Vector.origin N)).v x *
            (Pw.getD n (geom.Vector.origin N)).w * 1) / 1 =
          (Pw.getD n (geom.Vector.origin N)).v x
        rw [hwn]
        ring
      · show (1 : ℚ) = (Pw.getD n (geom.Vector.origin N)).w
        exact hwn.symm
    · intro j hj x
      rw [List.mem_range] at hj
      show ((Pw.getD (n - p + j) (geom.Vector.origin N)).v x *
          (Pw.getD (n - p + j) (geom.Vector.origin N)).w) *
          basisFuns n (U.getD (n + p + 1) 0) p (fun k => U.getD k 0) j = 0
      rw [hNb2 j, if_neg (by omega), mul_zero]

/-- C2 witness: the degree-1 clamped curve on `[0,0,1,1]` through `(0)` and
`(1)`. -/
theorem clamped_endpoint_interpolation_witness :
    position (⟨[⟨![0], 1⟩, ⟨![1], 1⟩], [0, 0, 1, 1], 1, true, true⟩ : Spline 1)
        (([0, 0, 1, 1] : List ℚ).getD 0 0) =
        [(⟨![0], 1⟩ : geom.Vector 1), ⟨![1], 1⟩].getD 0 (geom.Vector.origin 1) ∧
      position (⟨[⟨![0], 1⟩, ⟨![1], 1⟩], [0, 0, 1, 1], 1, true, true⟩ : Spline 1)
        (([0, 0, 1, 1] : List ℚ).getD 3 0) =
        [(⟨![0], 1⟩ : geom.Vector 1), ⟨![1], 1⟩].getD 1 (geom.Vector.origin 1) :=
  clamped_endpoint_interpolation 1 1 true [⟨![0], 1⟩, ⟨![1], 1⟩] [0, 0, 1, 1]
    rfl rfl le_rfl (by decide) (by decide) (by decide) (by decide) (by decide)
    (by decide)

/-- C7 (counterexample): on the invalid configuration `invalidSpline`
(degree 2 exceeds `numControlPoints - 1 = 1`; knot vector of the matching
length 5), `position(0)` does NOT surface a configuration error: the
evaluation proceeds into `curvePoint`, whose control-point loop reads index
`span - p + j = 2` of the 2-element control-point vector — an out-of-bounds
`operator[]` access (undefined behaviour), recorded as `none` by the checked
model. -/
theorem position_invalid_config_reads_oob :
    invalidSpline.controlPoints.length - 1 < invalidSpline.degree ∧
      positionC invalidSpline 0 = none := by
  constructor
  · show 2 - 1 < 2
    omega
  · with_unfolding_all decide

/-- C7 (amended): the evaluator performs no validation and never surfaces a
configuration error; what an invalid configuration does instead depends on
the instance.  First part: for every configuration whose degree `p` equals
its control-point count (hence exceeds `numControlPoints - 1`), with the
matching knot-vector length `2p + 1`, non-decreasing knots, the clamped flag
set and any parameter at most `knots[p]`, the checked evaluation of
`position` aborts on an out-of-bounds control-point access (undefined
behaviour) instead of returning a point or an error.  Second part: an invalid
configuration can equally well silently produce a point: on the over-long
(mis-sized) non-decreasing knot vector of `missizedSpline`, every container
access stays in range and the checked evaluation succeeds with the very point
the unchecked evaluation computes — no failure of any kind. -/
theorem position_no_validation :
    (∀ (N p : ℕ) (un : Bool) (Pw : List (geom.Vector N)) (U : List ℚ) (u : ℚ),
        1 ≤ p → Pw.length = p → U.length = 2 * p + 1 → List.Sorted (· ≤ ·) U →
        u ≤ U.getD p 0 →
        positionC (⟨Pw, U, p, un, true⟩ : Spline N) u = none) ∧
      (missizedSpline.knotVector.length ≠
          missizedSpline.controlPoints.length + missizedSpline.degree + 1 ∧
        positionC missizedSpline (1/2) = some (position missizedSpline (1/2))) := by
  constructor
  · intro N p un Pw U u hp hPw hlen hs hu
    have hne : ¬(U.length = 0) := by omega
    have hmn : U.getD 0 0 ≤ U.getD p 0 := getD_mono_of_sorted hs (by omega) (by omega)
    have hu2le : adjustParameter (⟨Pw, U, p, un, true⟩ : Spline N) u ≤ U.getD p 0 := by
      show min (max u (U.getD 0 0)) (U.getD (U.length - 1) 0) ≤ U.getD p 0
      exact le_trans (min_le_left _ _) (max_le hu hmn)
    have hadjC : adjustParameterC (⟨Pw, U, p, un, true⟩ : Spline N) u =
        some (adjustParameter (⟨Pw, U, p, un, true⟩ : Spline N) u) := by
      rw [adjustParameterC, if_neg hne, if_pos rfl]
    have hatp : atC U p = some (U.getD p 0) := by
      rw [atC, if_pos ⟨Int.ofNat_nonneg p, by exact_mod_cast by omega⟩]
      rw [Int.toNat_natCast]
    have hspanC : findSpanC (Pw.length - 1) p
        (adjustParameter (⟨Pw, U, p, un, true⟩ : Spline N) u) U = some p := by
      rw [findSpanC, hatp]
      show (if _ ≤ U.getD p 0 then some p else _) = some p
      rw [if_pos hu2le]
    have hcp : cpAccessOk p p Pw.length = false := by
      show ((List.range (p + 1)).all fun j =>
          decide (0 ≤ (p : ℤ) - (p : ℤ) + (j : ℤ)) &&
          decide ((p : ℤ) - (p : ℤ) + (j : ℤ) < (Pw.length : ℤ))) = false
      simp only [List.all_eq_false, List.mem_range]
      refine ⟨p, by omega, ?_⟩
      simp only [Bool.and_eq_true, decide_eq_true_eq, not_and]
      intro _ h2
      rw [hPw] at h2
      omega
    rw [positionC, hadjC]
    show curvePointC N (Pw.length - 1) p U Pw
        (adjustParameter (⟨Pw, U, p, un, true⟩ : Spline N) u) = none
    rw [curvePointC, hspanC]
    show (if basisAccessOk p p U.length ∧ cpAccessOk p p Pw.length then _ else none) = none
    rw [if_neg]
    rintro ⟨-, hc⟩
    rw [hcp] at hc
    exact Bool.false_ne_true hc
  · constructor
    · decide
    · with_unfolding_all rfl

/-- C7 witness: the out-of-bounds part applied to a degree-2,
two-control-point configuration, together with the silent-point evaluation on
the mis-sized configuration. -/
theorem position_no_validation_witness :
    positionC (⟨[geom.Vector2 0 0 1, geom.Vector2 1 1 1], [0, 0, 0, 1, 1], 2, true, true⟩ :
        Spline 2) 0 = none ∧
      positionC missizedSpline (1/2) = some (position missizedSpline (1/2)) :=
  ⟨position_no_validation.1 2 2 true [geom.Vector2 0 0 1, geom.Vector2 1 1 1]
      [0, 0, 0, 1, 1] 0 (by omega) rfl rfl (by decide) (by decide),
   position_no_validation.2.2⟩

/-- C8 (amended): `setUniform` and `setClamped` only store the flag; the knot
vector is left untouched and is regenerated only by the constructors and the
structural mutations (`pushControlPoint` and friends). -/
theorem setters_only_store_flags {N : ℕ} (s : Spline N) (b : Bool) :
    (setUniform b s).knotVector = s.knotVector ∧
      (setClamped b s).knotVector = s.knotVector ∧
      (setUniform b s).uniform = b ∧ (setClamped b s).clamped = b :=
  ⟨rfl, rfl, rfl, rfl⟩

end curve
